import Mathlib

/-!
Fit: the `compress` (variadic fold) and `combine` (argument distribution) adaptors

A shallow embedding of `include/fit/compress.hpp` and `fit/combine.h`.

Conventions of the embedding

* C++ values live in one carrier type `α`; a callable is a function into `Option`,
  where `none` stands for "this call expression is not well-formed", which is what
  the SFINAE return types of the source propagate to the caller.
* A variadic argument pack is a `List`.
* An adaptor object is a structure holding what the C++ object stores; its
  `operator()` is the function `call`.
-/

set_option autoImplicit false

namespace fit

universe u

variable {α : Type u}

namespace detail

/-- The two `operator()` overloads of `detail::v_fold`, with the function and the
state as the leading parameters both overloads declare and the trailing pack as a list.
The base overload `(const F&, State&& state)` returns the state; the recursive
overload `(const F& f, State&& state, T&& x, Ts&&... xs)` is
`(*this)(f, f(state, x), xs...)`, and is not viable when `f(state, x)` is not. -/
def v_fold (f : α → α → Option α) (state : α) : List α → Option α
  | [] => some state
  | x :: xs =>
    match f state x with
    | some s => v_fold f s xs
    | none => none

/-- Overload resolution for a call `v_fold()(f, args...)`: both overloads take a
`state` parameter after `f`, so a call carrying the function alone matches neither. -/
def v_fold_args (f : α → α → Option α) : List α → Option α
  | [] => none
  | state :: xs => v_fold f state xs

/-- The operand pairs at which `v_fold` evaluates `f`, in evaluation order: the
recursive overload evaluates `f(state, x)` once and recurses on the result, the base
overload does not evaluate `f`. -/
def v_fold_calls (f : α → α → Option α) (state : α) : List α → List (α × α)
  | [] => []
  | x :: xs =>
    match f state x with
    | some s => (state, x) :: v_fold_calls f s xs
    | none => [(state, x)]

/-- The operand pairs at which a call `v_fold()(f, args...)` evaluates `f`. -/
def v_fold_args_calls (f : α → α → Option α) : List α → List (α × α)
  | [] => []
  | state :: xs => v_fold_calls f state xs

end detail

/-- The primary template `compress_adaptor<F, State>`: a
`compressed_pair<callable_base<F>, State>`. -/
structure compress_adaptor (α : Type u) where
  /-- The stored function, `this->first(...)`. -/
  first : α → α → Option α
  /-- The stored state, `this->second(...)`. -/
  second : α

namespace compress_adaptor

/-- The member `base_function` of `compress_adaptor<F, State>`: `this->first(xs...)`. -/
def base_function (self : compress_adaptor α) : α → α → Option α := self.first

/-- The member `get_state` of `compress_adaptor<F, State>`: `this->second(xs...)`. -/
def get_state (self : compress_adaptor α) : α := self.second

/-- The member `operator()` of `compress_adaptor<F, State>`:
`v_fold()(base_function(xs...), get_state(xs...), xs...)`. -/
def call (self : compress_adaptor α) (xs : List α) : Option α :=
  detail.v_fold self.base_function self.get_state xs

/-- The operand pairs at which an invocation of `compress_adaptor<F, State>` evaluates
the stored function. -/
def calls (self : compress_adaptor α) (xs : List α) : List (α × α) :=
  detail.v_fold_calls self.base_function self.get_state xs

end compress_adaptor

/-- The specialisation `compress_adaptor<F, void>`: derives from `callable_base<F>`
and stores nothing else. -/
structure compress_adaptor_void (α : Type u) where
  /-- The base-class subobject `callable_base<F>`. -/
  base : α → α → Option α

namespace compress_adaptor_void

/-- The member `base_function` of `compress_adaptor<F, void>`: `always_ref(*this)(xs...)`. -/
def base_function (self : compress_adaptor_void α) : α → α → Option α := self.base

/-- The member `operator()` of `compress_adaptor<F, void>`:
`v_fold()(base_function(xs...), xs...)`. -/
def call (self : compress_adaptor_void α) (xs : List α) : Option α :=
  detail.v_fold_args self.base_function xs

/-- The operand pairs at which an invocation of `compress_adaptor<F, void>` evaluates
the stored function. -/
def calls (self : compress_adaptor_void α) (xs : List α) : List (α × α) :=
  detail.v_fold_args_calls self.base_function xs

end compress_adaptor_void

/-- The call `compress(f, z)`: `detail::make<compress_adaptor>` with two arguments
builds a `compress_adaptor<F, State>` from them. -/
def compress (f : α → α → Option α) (z : α) : compress_adaptor α := ⟨f, z⟩

/-- The call `compress(f)`: `detail::make<compress_adaptor>` with one argument
builds a `compress_adaptor<F>`, that is `compress_adaptor<F, void>`. -/
def compress1 (f : α → α → Option α) : compress_adaptor_void α := ⟨f⟩

/-- A binary operation that is valid on every operand pair, as a callable. -/
def total (F : α → α → α) : α → α → Option α := fun a b => some (F a b)

/-- A binary callable that is invalid for every operand pair. -/
def invalid : α → α → Option α := fun _ _ => none

/-- Integer addition as a binary callable. -/
def plus : Int → Int → Option Int := total (· + ·)

/-- The integer types of the operands that `max_f` is modelled on. All of them have
at least the rank of `int`, so no integer promotion applies to them. -/
inductive int_type where
  | int
  | unsigned_int
  | long_long
  | unsigned_long_long
  deriving DecidableEq

namespace int_type

/-- The least value of the type. -/
def min : int_type → Int
  | int => -2147483648
  | unsigned_int => 0
  | long_long => -9223372036854775808
  | unsigned_long_long => 0

/-- The number of values of the type: `2^32` or `2^64`. -/
def modulus : int_type → Int
  | int => 4294967296
  | unsigned_int => 4294967296
  | long_long => 18446744073709551616
  | unsigned_long_long => 18446744073709551616

/-- The value `v` is representable in the type. -/
def in_range (t : int_type) (v : Int) : Prop := t.min ≤ v ∧ v < t.min + t.modulus

instance (t : int_type) (v : Int) : Decidable (t.in_range v) := by
  unfold in_range
  infer_instance

/-- Conversion of an integer value to the type: the value of the type congruent to `v`
modulo the number of values of the type. -/
def convert (t : int_type) (v : Int) : Int := (v - t.min) % t.modulus + t.min

/-- The usual arithmetic conversions: the common type to which two operands of these
types are brought before `>` and `?:` are evaluated. -/
def usual_arithmetic_conversions : int_type → int_type → int_type
  | unsigned_long_long, _ => unsigned_long_long
  | _, unsigned_long_long => unsigned_long_long
  | long_long, _ => long_long
  | _, long_long => long_long
  | unsigned_int, _ => unsigned_int
  | _, unsigned_int => unsigned_int
  | int, int => int

end int_type

/-- An integer operand: its C++ type and its value. -/
structure integer where
  /-- The type of the operand. -/
  ty : int_type
  /-- The value of the operand. -/
  val : Int
  deriving DecidableEq

/-- The body of `max_f::operator()(T x, U y)`: `return x > y ? x : y;` with return type
`T`. Both operands are brought to their common type, compared there, the selected one is
the value of the conditional expression in the common type, and the `return` converts
it to `T`, the type of the first operand. -/
def max_f_apply (x y : integer) : integer :=
  let c := int_type.usual_arithmetic_conversions x.ty y.ty
  let a := c.convert x.val
  let b := c.convert y.val
  ⟨x.ty, x.ty.convert (if a > b then a else b)⟩

/-- The functor `max_f` of the documentation example, valid on every pair of integer
operands. -/
def max_f : integer → integer → Option integer := total max_f_apply

/-- An operand of type `int`. -/
def int_ (v : Int) : integer := ⟨int_type.int, v⟩

namespace detail

/-- Modelled from the spec: the index sequence `gens<n>::type` of `fit/pack.h`, a header
that is not part of the sources at hand. It is the sequence `seq<0, ..., n-1>` of the
positional indices of `n` wrapped callables. -/
def gens (n : Nat) : List Nat := List.range n

/-- Modelled from the spec: the helper `pack_get` of `fit/pack.h`, a header that is not
part of the sources at hand: "given position `i` and the list of wrapped callables,
return the callable responsible for that position". There is none for a position
outside the list. -/
def pack_get (n : Nat) (gs : List (α → Option α)) : Option (α → Option α) := gs.get? n

/-- The pack expansion
`pack_get<Ns, Gs, pack_tag<Gs...>>(*this, xs)(fit::forward<Ts>(xs))...`
of `combine_adaptor_base::operator()`. The packs `Ns`, `Gs` and `xs` are expanded
together, one element of each per position, so they must have the same length; the
whole pack `Gs...` inside `pack_tag` is the last parameter. The element at a position
is the callable `pack_get` returns for the index, applied to the argument. -/
def expand : List Nat → List (α → Option α) → List α → List (α → Option α) → Option (List α)
  | [], [], [], _ => some []
  | n :: ns, _ :: gts, x :: xs, gs =>
    match pack_get n gs with
    | none => none
    | some g =>
      match g x with
      | none => none
      | some r =>
        match expand ns gts xs gs with
        | none => none
        | some rs => some (r :: rs)
  | _, _, _, _ => none

/-- The class `combine_adaptor_base<seq<Ns...>, F, Gs...>`: the index sequence it is
instantiated with, the base-class subobject `F` and the pack of wrapped callables held
by its other base class. -/
structure combine_adaptor_base (α : Type u) where
  /-- The template arguments `Ns...`. -/
  Ns : List Nat
  /-- The base-class subobject `F`, a callable on a list of arguments. -/
  F : List α → Option α
  /-- The stored callables `Gs...`. -/
  Gs : List (α → Option α)

namespace combine_adaptor_base

/-- The member `base_function` of `combine_adaptor_base`: `always_ref(*this)(xs...)`,
the object seen as its base `F`. -/
def base_function (self : combine_adaptor_base α) : List α → Option α := self.F

/-- The member `operator()` of `combine_adaptor_base`: the base function applied to
the expansion of the wrapped callables over the arguments. -/
def call (self : combine_adaptor_base α) (xs : List α) : Option α :=
  match expand self.Ns self.Gs xs self.Gs with
  | none => none
  | some rs => self.base_function rs

end combine_adaptor_base

end detail

/-- The names of template parameter packs that the definition of `combine_adaptor`
mentions. -/
inductive pack_name where
  | Gs
  | Ts
  deriving DecidableEq

/-- The template parameter packs that `template<class F, class... Gs>
struct combine_adaptor` declares, each with its size: the pack `Gs` alone. -/
def combine_adaptor_packs (gs : List (α → Option α)) : List (pack_name × Nat) :=
  [(pack_name.Gs, gs.length)]

/-- The expression `sizeof...(P)`: the size of the pack named `P` among the declared
ones; the expression is not well-formed when no pack of that name is declared. -/
def sizeof_pack (declared : List (pack_name × Nat)) (p : pack_name) : Option Nat :=
  declared.lookup p

/-- The class `combine_adaptor<F, Gs...>`: a `combine_adaptor_base` instantiated with
`gens<sizeof...(Ts)>::type`, `F` and `Gs...`. There is no such class when its base
class specifier is not well-formed. -/
def combine_adaptor (f : List α → Option α) (gs : List (α → Option α)) :
    Option (detail.combine_adaptor_base α) :=
  match sizeof_pack (combine_adaptor_packs gs) pack_name.Ts with
  | none => none
  | some n => some ⟨detail.gens n, f, gs⟩

/-- The call `combine(f, gs...)`: `detail::make<combine_adaptor>` builds a
`combine_adaptor<F, Gs...>` from its arguments. -/
def combine (f : List α → Option α) (gs : List (α → Option α)) :
    Option (detail.combine_adaptor_base α) :=
  combine_adaptor f gs

/-- The expression `combine(f, gs...)(xs...)`: the `operator()` of the object that
`combine` builds, applied to the arguments. -/
def combine_call (f : List α → Option α) (gs : List (α → Option α)) (xs : List α) :
    Option α :=
  match combine f gs with
  | none => none
  | some c => c.call xs

/-- A unary function that is valid on every argument, as a callable. -/
def total1 (G : α → α) : α → Option α := fun a => some (G a)

/-- The outer function `sum` of the scenario: the sum of two integers, invalid for any
other number of arguments. -/
def sum : List Int → Option Int
  | [a, b] => some (a + b)
  | _ => none

/-- The wrapped callable `increment` of the scenario. -/
def increment : Int → Option Int := total1 (· + 1)

/-- The wrapped callable `double` of the scenario. -/
def double : Int → Option Int := total1 (2 * ·)

/-- A function of a whole argument list that is valid on every list, as a callable. -/
def totalv (G : List α → α) : List α → Option α := fun l => some (G l)

/-- The call expression `g(x)` of `combine_adaptor_base::operator()` for a callable `g`
that takes an argument list: `g` receives the one argument `x`. -/
def unary (G : List α → Option α) : α → Option α := fun a => G [a]

/-- A wrapped callable that adds up all the arguments it is given. -/
def sum_all : List Int → Option Int := totalv List.sum

/-! ### Callables that are objects with members

For the effect of an invocation on the adaptor object, a stored callable is an object
with members: `op m a b` is the call `f(a, b)` on the callable whose members hold `m`.
It has no value when the call is not well-formed; otherwise it gives the result and the
members after the call, which may differ from `m`, since a `const` call operator can
write `mutable` members. -/

universe v w

variable {σ : Type v} {τ : Type w}

namespace detail

end detail

theorem detail.v_fold_eq_foldlM (f : α → α → Option α) (state : α) (xs : List α) :
    detail.v_fold f state xs = List.foldlM f state xs := by
  induction xs generalizing state with
  | nil => rfl
  | cons x xs ih =>
    simp only [detail.v_fold, List.foldlM_cons]
    cases f state x with
    | none => rfl
    | some s => exact ih s

theorem detail.v_fold_total (F : α → α → α) (state : α) (xs : List α) :
    detail.v_fold (total F) state xs = some (List.foldl F state xs) := by
  induction xs generalizing state with
  | nil => rfl
  | cons x xs ih => simpa [detail.v_fold, total] using ih (F state x)

theorem detail.v_fold_cons (f : α → α → Option α) (state x : α) (xs : List α) :
    detail.v_fold f state (x :: xs) = (f state x).bind (fun s => detail.v_fold f s xs) := by
  simp only [detail.v_fold]
  cases f state x <;> rfl

/-! ## The fold adaptor -/

/-- C1: the seeded fold is a left fold. For a binary operation `F` valid on every
operand pair, `compress(F, z)(x0, ..., xk)` is `F(...F(F(z, x0), x1)..., xk)`, the left
fold of `F` over the list started at `z` (the seed itself for the empty list); for a
callable `f` that may be invalid on some pairs it is the left fold of `f` that is
rejected at the first invalid step. -/
theorem compress_seeded_is_left_fold (F : α → α → α) (f : α → α → Option α) (z : α)
    (xs : List α) :
    (compress (total F) z).call xs = some (List.foldl F z xs) ∧
      (compress f z).call xs = List.foldlM f z xs :=
  ⟨detail.v_fold_total F z xs, detail.v_fold_eq_foldlM f z xs⟩

/-- C3: seeded recursive equivalence. For a binary operation `F`,
`compress(F, z)(x, xs...)` and `compress(F, F(z, x))(xs...)` both have a value and it is
the same value, and `compress(F, z)(x)` is `F(z, x)`; for a callable `f` that may be
invalid, the left side is the right side at the value of `f(z, x)`, and is rejected
when `f(z, x)` is. -/
theorem compress_seeded_step (F : α → α → α) (f : α → α → Option α) (z x : α)
    (xs : List α) :
    (∃ v, (compress (total F) z).call (x :: xs) = some v ∧
        (compress (total F) (F z x)).call xs = some v) ∧
      (compress (total F) z).call [x] = some (F z x) ∧
      (compress f z).call (x :: xs) = (f z x).bind (fun s => (compress f s).call xs) :=
  ⟨⟨List.foldl F (F z x) xs, detail.v_fold_total F z (x :: xs),
      detail.v_fold_total F (F z x) xs⟩, rfl, detail.v_fold_cons f z x xs⟩

/-- C4: the seeded fold with no arguments returns the seed. `compress(f, z)()` is `z`
for every `f`, also for the `f` that is invalid on every operand pair, and the
invocation evaluates `f` at no operand pair. -/
theorem compress_seeded_no_args (f : α → α → Option α) (z : α) :
    (compress f z).call [] = some z ∧
      (compress (invalid : α → α → Option α) z).call [] = some z ∧
      (compress f z).calls [] = [] :=
  ⟨rfl, rfl, rfl⟩

/-- C5: unseeded recursive equivalence. For a binary operation `F`,
`compress(F)(x, y, xs...)` and `compress(F)(F(x, y), xs...)` both have a value and it is
the same value, and `compress(F)(x, y)` is `F(x, y)`; for a callable `f` that may be
invalid, the left side is the right side at the value of `f(x, y)`, and is rejected
when `f(x, y)` is. -/
theorem compress_unseeded_step (F : α → α → α) (f : α → α → Option α) (x y : α)
    (xs : List α) :
    (∃ v, (compress1 (total F)).call (x :: y :: xs) = some v ∧
        (compress1 (total F)).call (F x y :: xs) = some v) ∧
      (compress1 (total F)).call [x, y] = some (F x y) ∧
      (compress1 f).call (x :: y :: xs) =
        (f x y).bind (fun s => (compress1 f).call (s :: xs)) :=
  ⟨⟨List.foldl F (F x y) xs, detail.v_fold_total F x (y :: xs),
      detail.v_fold_total F (F x y) xs⟩, rfl, detail.v_fold_cons f x y xs⟩

/-- C6: the unseeded fold of a single argument is the identity. `compress(f)(x)` is `x`
for every `f`, also for the `f` that is invalid on every operand pair, and the
invocation evaluates `f` at no operand pair. -/
theorem compress_unseeded_single (f : α → α → Option α) (x : α) :
    (compress1 f).call [x] = some x ∧
      (compress1 (invalid : α → α → Option α)).call [x] = some x ∧
      (compress1 f).calls [x] = [] :=
  ⟨rfl, rfl, rfl⟩

/-- C7: the unseeded fold uses its first argument as the seed. `compress(f)(x, xs...)`
equals `compress(f, x)(xs...)`, and both invocations evaluate `f` at the same operand
pairs. -/
theorem compress_unseeded_eq_seeded (f : α → α → Option α) (x : α) (xs : List α) :
    (compress1 f).call (x :: xs) = (compress f x).call xs ∧
      (compress1 f).calls (x :: xs) = (compress f x).calls xs :=
  ⟨rfl, rfl⟩

/-- C8: the unseeded fold with no arguments is rejected. For every `f`, `compress(f)()`
has no value: neither overload of `v_fold` accepts the call, and `f` is evaluated at no
operand pair. -/
theorem compress_unseeded_no_args (f : α → α → Option α) :
    (compress1 f).call [] = none ∧ (compress1 f).calls [] = [] :=
  ⟨rfl, rfl⟩

/-! ## Lemmas on the pack expansion -/

theorem detail.expand_some_length {ns : List Nat} {gts : List (α → Option α)} {xs : List α}
    {gs : List (α → Option α)} {rs : List α} (h : detail.expand ns gts xs gs = some rs) :
    ns.length = gts.length ∧ gts.length = xs.length := by
  induction ns generalizing gts xs rs with
  | nil =>
    cases gts <;> cases xs <;> simp [detail.expand] at h ⊢
  | cons n ns ih =>
    cases gts with
    | nil => simp [detail.expand] at h
    | cons g gts =>
      cases xs with
      | nil => simp [detail.expand] at h
      | cons x xs =>
        simp only [detail.expand] at h
        split at h
        · exact absurd h (by simp)
        · split at h
          · exact absurd h (by simp)
          · split at h
            · exact absurd h (by simp)
            · rename_i rs' hrs
              have := ih hrs
              simp [this.1, this.2]

theorem detail.expand_eq_none_of_length_ne (ns : List Nat) (gts : List (α → Option α))
    (xs : List α) (gs : List (α → Option α)) (h : gts.length ≠ xs.length) :
    detail.expand ns gts xs gs = none := by
  cases hrs : detail.expand ns gts xs gs with
  | none => rfl
  | some rs => exact absurd (detail.expand_some_length hrs).2 h

theorem detail.expand_range_total (pre gts : List (α → α)) (xs : List α)
    (h : gts.length = xs.length) :
    detail.expand (List.range' pre.length gts.length) (gts.map total1) xs
        ((pre ++ gts).map total1) =
      some (List.zipWith (fun g a => g a) gts xs) := by
  induction gts generalizing pre xs with
  | nil =>
    cases xs with
    | nil => rfl
    | cons x xs => simp at h
  | cons g gts ih =>
    cases xs with
    | nil => simp at h
    | cons x xs =>
      have hlen : gts.length = xs.length := by simpa using h
      have hget : detail.pack_get pre.length ((pre ++ g :: gts).map total1) =
          some (total1 g) := by
        have hpre : pre.length = (pre.map total1).length := by simp
        simp only [detail.pack_get, List.map_append, List.map_cons, List.get?_eq_getElem?]
        rw [hpre, List.getElem?_append_right (Nat.le_refl _)]
        simp
      have hrec := ih (pre ++ [g]) xs hlen
      simp only [List.length_append, List.length_singleton, List.append_assoc,
        List.singleton_append] at hrec
      simp only [List.length_cons, List.range'_succ, List.map_cons, detail.expand, hget,
        List.zipWith_cons_cons]
      simp only [total1, hrec]

theorem zipWith_ofFn_apply {n : Nat} (G : Fin n → α → α) (a : Fin n → α) :
    List.zipWith (fun g x => g x) (List.ofFn G) (List.ofFn a) =
      List.ofFn (fun i => G i (a i)) := by
  apply List.ext_getElem
  · simp
  · intro i h1 h2
    simp

theorem detail.call_total (f : List α → Option α) (gs : List (α → α)) (xs : List α)
    (h : gs.length = xs.length) :
    (detail.combine_adaptor_base.mk (detail.gens gs.length) f (gs.map total1)).call xs =
      f (List.zipWith (fun g a => g a) gs xs) := by
  have := detail.expand_range_total [] gs xs h
  simp only [List.length_nil, List.nil_append] at this
  simp only [detail.combine_adaptor_base.call, detail.gens,
    List.range_eq_range', this, detail.combine_adaptor_base.base_function]

theorem detail.call_eq_none_of_length_ne (Ns : List Nat) (f : List α → Option α)
    (gs : List (α → Option α)) (xs : List α) (h : gs.length ≠ xs.length) :
    (detail.combine_adaptor_base.mk Ns f gs).call xs = none := by
  simp only [detail.combine_adaptor_base.call,
    detail.expand_eq_none_of_length_ne _ gs xs gs h]

theorem detail.call_eq_none_of_size_ne (Ns : List Nat) (f : List α → Option α)
    (gs : List (α → Option α)) (xs : List α) (h : Ns.length ≠ gs.length) :
    (detail.combine_adaptor_base.mk Ns f gs).call xs = none := by
  cases hrs : detail.expand Ns gs xs gs with
  | none => simp only [detail.combine_adaptor_base.call, hrs]
  | some rs => exact absurd (detail.expand_some_length hrs).1 h

theorem detail.expand_some_results {ns : List Nat} {gts : List (α → Option α)}
    {xs : List α} {gs : List (α → Option α)} {rs : List α}
    (h : detail.expand ns gts xs gs = some rs) :
    rs.length = xs.length ∧
      ∀ (k : Nat) (x : α), xs[k]? = some x →
        ∃ (n : Nat) (g : α → Option α) (y : α),
          ns[k]? = some n ∧ gs[n]? = some g ∧ g x = some y ∧ rs[k]? = some y := by
  induction ns generalizing gts xs rs with
  | nil =>
    cases gts <;> cases xs <;> simp [detail.expand] at h ⊢
    simp [← h]
  | cons n ns ih =>
    cases gts with
    | nil => simp [detail.expand] at h
    | cons g0 gts =>
      cases xs with
      | nil => simp [detail.expand] at h
      | cons x0 xs =>
        simp only [detail.expand] at h
        split at h
        · exact absurd h (by simp)
        · rename_i g hg
          split at h
          · exact absurd h (by simp)
          · rename_i r hr
            split at h
            · exact absurd h (by simp)
            · rename_i rs' hrs
              have hrs_eq : rs = r :: rs' := (Option.some.inj h).symm
              subst hrs_eq
              obtain ⟨hlen, hpos⟩ := ih hrs
              refine ⟨by simp [hlen], ?_⟩
              intro k x hk
              cases k with
              | zero =>
                simp only [List.getElem?_cons_zero, Option.some.injEq] at hk
                subst hk
                refine ⟨n, g, r, by simp, ?_, hr, by simp⟩
                simpa [detail.pack_get] using hg
              | succ k =>
                simp only [List.getElem?_cons_succ] at hk
                obtain ⟨n', g', y, h1, h2, h3, h4⟩ := hpos k x hk
                exact ⟨n', g', y, by simpa using h1, h2, h3, by simpa using h4⟩

theorem combine_eq_none (f : List α → Option α) (gs : List (α → Option α)) :
    combine f gs = none :=
  rfl

theorem combine_call_eq_none (f : List α → Option α) (gs : List (α → Option α))
    (xs : List α) : combine_call f gs xs = none :=
  rfl

/-! ## The distribution adaptor -/

/-- C2: `combine(sum, increment, double)(3, 5)` has no value, where the claim gives
`sum(4, 10) == 14`, and so has every call `combine(F, G0, ..., Gn-1)(a0, ..., an-1)`:
`combine_adaptor` takes the size of a pack `Ts` that it does not declare. The base class
instantiated with the indices `0, ..., n-1` does give `F(G0(a0), ..., Gn-1(an-1))`. -/
theorem combine_scenario_has_no_value (n : Nat) (f : List α → Option α)
    (G : Fin n → α → α) (a : Fin n → α) :
    combine_call sum [increment, double] [3, 5] = none ∧
      sum [4, 10] = some 14 ∧
      combine_call f (List.ofFn (fun i => total1 (G i))) (List.ofFn a) = none ∧
      (detail.combine_adaptor_base.mk (detail.gens n) f
          (List.ofFn (fun i => total1 (G i)))).call (List.ofFn a) =
        f (List.ofFn (fun i => G i (a i))) := by
  refine ⟨rfl, by decide, rfl, ?_⟩
  have h := detail.call_total f (List.ofFn G) (List.ofFn a) (by simp)
  simp only [List.length_ofFn, List.map_ofFn, zipWith_ofFn_apply] at h
  exact h

/-- C9, as stated, fails: `combine(sum, increment, double)(3, 5, 6)` has three arguments
for two wrapped callables and has no value, also in the base class instantiated with the
indices `0, 1`, while the claim gives it the value `sum(3 + 1, 2 * 5) == 14`. -/
theorem combine_surplus_args_counterexample :
    combine_call sum [increment, double] [3, 5, 6] = none ∧
      (detail.combine_adaptor_base.mk (detail.gens 2) sum [increment, double]).call
        [3, 5, 6] = none ∧
      sum [3 + 1, 2 * 5] = some 14 ∧
      combine_call sum [increment, double] [3, 5, 6] ≠ sum [3 + 1, 2 * 5] := by
  decide

/-- C9, amended: for `n` wrapped callables and an argument list of length `m > n`,
`combine(F, G0, ..., Gn-1)(a0, ..., am-1)` is rejected: the invocation operator has no
value at any index sequence the base class is instantiated with, and the surplus
arguments are not dropped. -/
theorem combine_surplus_args_rejected (Ns : List Nat) (f : List α → Option α)
    (gs : List (α → Option α)) (xs : List α) (h : gs.length < xs.length) :
    (detail.combine_adaptor_base.mk Ns f gs).call xs = none ∧
      combine_call f gs xs = none :=
  ⟨detail.call_eq_none_of_length_ne Ns f gs xs (Nat.ne_of_lt h), rfl⟩

/-- Instance of the amended C9 at two wrapped callables and three arguments. -/
theorem combine_surplus_args_rejected_witness :
    [increment, double].length < [(3 : Int), 5, 6].length ∧
      ((detail.combine_adaptor_base.mk [0, 1] sum [increment, double]).call [3, 5, 6] =
          none ∧
        combine_call sum [increment, double] [3, 5, 6] = none) :=
  ⟨by decide, combine_surplus_args_rejected [0, 1] sum [increment, double] [3, 5, 6]
    (by decide)⟩

/-- C10: `combine` rejects too few arguments. With `n` wrapped callables and an argument
list of length `m < n`, `combine(F, G0, ..., Gn-1)(a0, ..., am-1)` has no value, whatever
`F` and the `Gi` are and whatever index sequence the base class is instantiated with. -/
theorem combine_too_few_args (Ns : List Nat) (f : List α → Option α)
    (gs : List (α → Option α)) (xs : List α) (h : xs.length < gs.length) :
    (detail.combine_adaptor_base.mk Ns f gs).call xs = none ∧
      combine_call f gs xs = none :=
  ⟨detail.call_eq_none_of_length_ne Ns f gs xs (Nat.ne_of_gt h), rfl⟩

/-- Instance of C10 at two wrapped callables and one argument. -/
theorem combine_too_few_args_witness :
    [(3 : Int)].length < [increment, double].length ∧
      ((detail.combine_adaptor_base.mk [0, 1] sum [increment, double]).call [3] = none ∧
        combine_call sum [increment, double] [3] = none) :=
  ⟨by decide, combine_too_few_args [0, 1] sum [increment, double] [3] (by decide)⟩

/-! ## Further lemmas on `v_fold` -/

theorem detail.v_fold_append (f : α → α → Option α) (state : α) (xs ys : List α) :
    detail.v_fold f state (xs ++ ys) =
      (detail.v_fold f state xs).bind (fun s => detail.v_fold f s ys) := by
  induction xs generalizing state with
  | nil => rfl
  | cons x xs ih =>
    simp only [List.cons_append, detail.v_fold]
    cases f state x with
    | none => rfl
    | some s => exact ih s

theorem detail.v_fold_isSome_iff (f : α → α → Option α) (state : α) (xs : List α) :
    (detail.v_fold f state xs).isSome ↔
      ∀ ys x zs, xs = ys ++ x :: zs →
        ∃ s, detail.v_fold f state ys = some s ∧ (f s x).isSome := by
  constructor
  · intro h ys x zs hxs
    subst hxs
    rw [detail.v_fold_append] at h
    cases hys : detail.v_fold f state ys with
    | none => simp [hys] at h
    | some s =>
      refine ⟨s, rfl, ?_⟩
      simp only [hys, Option.some_bind, detail.v_fold] at h
      cases hfx : f s x with
      | none => simp [hfx] at h
      | some t => rfl
  · intro h
    rcases List.eq_nil_or_concat xs with hnil | ⟨ys, x, hxs⟩
    · subst hnil
      rfl
    · have hxs2 : xs = ys ++ x :: [] := by simpa using hxs
      obtain ⟨s, hs, hfx⟩ := h ys x [] hxs2
      subst hxs2
      rw [detail.v_fold_append, hs]
      simp only [Option.some_bind, detail.v_fold]
      cases hfx2 : f s x with
      | none => simp [hfx2] at hfx
      | some t => rfl

theorem foldl_add_eq (z : Int) (xs : List Int) :
    List.foldl (· + ·) z xs = z + xs.sum := by
  induction xs generalizing z with
  | nil => simp
  | cons x xs ih => simp [ih, add_assoc]

theorem foldl_max_spec (x : Int) (xs : List Int) :
    List.foldl (fun a b => if a > b then a else b) x xs ∈ x :: xs ∧
      ∀ y ∈ x :: xs, y ≤ List.foldl (fun a b => if a > b then a else b) x xs := by
  induction xs generalizing x with
  | nil => simp
  | cons a xs ih =>
    simp only [List.foldl_cons]
    obtain ⟨hmem, hle⟩ := ih (if x > a then x else a)
    constructor
    · rcases List.mem_cons.1 hmem with h | h
      · rw [h]
        split
        · exact List.mem_cons_self _ _
        · exact List.mem_cons_of_mem _ (List.mem_cons_self _ _)
      · exact List.mem_cons_of_mem _ (List.mem_cons_of_mem _ h)
    · intro y hy
      have hstep := hle (if x > a then x else a) (List.mem_cons_self _ _)
      rcases List.mem_cons.1 hy with h | h
      · subst h
        refine le_trans ?_ hstep
        split <;> omega
      · rcases List.mem_cons.1 h with h2 | h2
        · subst h2
          refine le_trans ?_ hstep
          split <;> omega
        · exact hle y (List.mem_cons_of_mem _ h2)


theorem detail.v_fold_eq_none_iff (f : α → α → Option α) (state : α) (xs : List α) :
    detail.v_fold f state xs = none ↔
      ∃ ys x zs s, xs = ys ++ x :: zs ∧ detail.v_fold f state ys = some s ∧
        f s x = none := by
  constructor
  · intro h
    induction xs generalizing state with
    | nil => simp [detail.v_fold] at h
    | cons x xs ih =>
      cases hfx : f state x with
      | none => exact ⟨[], x, xs, state, rfl, rfl, hfx⟩
      | some t =>
        simp only [detail.v_fold, hfx] at h
        obtain ⟨ys, x', zs, s, hxs, hys, hs⟩ := ih t h
        refine ⟨x :: ys, x', zs, s, by simp [hxs], ?_, hs⟩
        simp only [detail.v_fold, hfx]
        exact hys
  · rintro ⟨ys, x, zs, s, hxs, hys, hs⟩
    subst hxs
    rw [detail.v_fold_append, hys]
    simp only [Option.some_bind, detail.v_fold, hs]

theorem int_type.usual_arithmetic_conversions_self (t : int_type) :
    int_type.usual_arithmetic_conversions t t = t := by
  cases t <;> rfl

theorem int_type.convert_of_in_range (t : int_type) (v : Int) (h : t.in_range v) :
    t.convert v = v := by
  cases t <;>
    simp only [int_type.in_range, int_type.min, int_type.modulus] at h <;>
    simp only [int_type.convert, int_type.min, int_type.modulus] <;>
    omega

theorem max_f_apply_same_type (t : int_type) (a b : Int) (ha : t.in_range a)
    (hb : t.in_range b) :
    max_f_apply ⟨t, a⟩ ⟨t, b⟩ = ⟨t, if a > b then a else b⟩ := by
  have hmax : t.in_range (if a > b then a else b) := by
    split
    · exact ha
    · exact hb
  simp only [max_f_apply, int_type.usual_arithmetic_conversions_self,
    int_type.convert_of_in_range t a ha, int_type.convert_of_in_range t b hb,
    int_type.convert_of_in_range t _ hmax]

theorem detail.v_fold_max_f_same_type (t : int_type) (x : Int) (xs : List Int)
    (hx : t.in_range x) (hxs : ∀ y ∈ xs, t.in_range y) :
    detail.v_fold max_f ⟨t, x⟩ (xs.map (integer.mk t)) =
      some ⟨t, List.foldl (fun a b => if a > b then a else b) x xs⟩ := by
  induction xs generalizing x with
  | nil => rfl
  | cons y ys ih =>
    have hy : t.in_range y := hxs y (List.mem_cons_self _ _)
    have hm : t.in_range (if x > y then x else y) := by
      split
      · exact hx
      · exact hy
    simp only [List.map_cons, detail.v_fold, max_f, total, max_f_apply_same_type t x y hx hy,
      List.foldl_cons]
    exact ih _ hm (fun z hz => hxs z (List.mem_cons_of_mem _ hz))

/-! ## The fold adaptor, continued -/

/-- C11: fold well-formedness is all-or-nothing. For every seed `z` and argument list
`xs`, the seeded call `compress(f, z)(xs...)` and the unseeded call
`compress(f)(z, xs...)`, whose seed is its first argument, have a value if and only if
every step of the chain is valid: at every position of `xs`, the left fold of `f` from
`z` over the arguments before it has a value `s`, the state of the chain there, and
`f(s, x)` is valid at the argument `x` of the position. The call is rejected, with no
value at all, if and only if the chain reaches a state `s` and an argument `x` at which
`f(s, x)` is invalid. -/
theorem fold_accepted_iff_every_step_valid (f : α → α → Option α) (z : α) (xs : List α) :
    (((compress f z).call xs).isSome ↔
        ∀ ys x zs, xs = ys ++ x :: zs →
          ∃ s, List.foldlM f z ys = some s ∧ (f s x).isSome) ∧
      (((compress1 f).call (z :: xs)).isSome ↔
        ∀ ys x zs, xs = ys ++ x :: zs →
          ∃ s, List.foldlM f z ys = some s ∧ (f s x).isSome) ∧
      ((compress f z).call xs = none ↔
        ∃ ys x zs s, xs = ys ++ x :: zs ∧ List.foldlM f z ys = some s ∧ f s x = none) ∧
      ((compress1 f).call (z :: xs) = none ↔
        ∃ ys x zs s, xs = ys ++ x :: zs ∧ List.foldlM f z ys = some s ∧ f s x = none) := by
  have h1 := detail.v_fold_isSome_iff f z xs
  have h2 := detail.v_fold_eq_none_iff f z xs
  simp only [detail.v_fold_eq_foldlM f z] at h1 h2
  have e : (compress f z).call xs = List.foldlM f z xs := detail.v_fold_eq_foldlM f z xs
  have e1 : (compress1 f).call (z :: xs) = List.foldlM f z xs :=
    detail.v_fold_eq_foldlM f z xs
  rw [e, e1]
  exact ⟨h1, h1, h2, h2⟩

/-- C13, as stated, fails on integers of different types: `max_f` returns the type of
its first operand, so `compress(max_f)(1, 3000000000LL)` is the `int` `-1294967296`,
which is not an element of the list and is less than both elements. -/
theorem compress_max_counterexample :
    (compress1 max_f).call [int_ 1, ⟨int_type.long_long, 3000000000⟩] =
        some (int_ (-1294967296)) ∧
      int_ (-1294967296) ∉ [int_ 1, ⟨int_type.long_long, 3000000000⟩] ∧
      ¬ ((1 : Int) ≤ -1294967296) ∧ ¬ ((3000000000 : Int) ≤ -1294967296) := by
  decide

/-- C13, amended: the unseeded fold of `max_f` computes the maximum of integers of one
type. For every non-empty list of integers `x0, ..., xk` that all have the same integer
type, `compress(max_f)(x0, ..., xk)` has a value of that type, which is an element of the
list and is at least every element; `compress(max_f)(2, 3, 4, 5) == 5`. -/
theorem compress_max_is_greatest (t : int_type) (x : Int) (xs : List Int)
    (h : ∀ y ∈ x :: xs, t.in_range y) :
    (∃ m, (compress1 max_f).call (integer.mk t x :: xs.map (integer.mk t)) =
          some (integer.mk t m) ∧
        m ∈ x :: xs ∧ ∀ y ∈ x :: xs, y ≤ m) ∧
      (compress1 max_f).call [int_ 2, int_ 3, int_ 4, int_ 5] = some (int_ 5) :=
  ⟨⟨_, detail.v_fold_max_f_same_type t x xs (h x (List.mem_cons_self _ _))
      (fun y hy => h y (List.mem_cons_of_mem _ hy)), foldl_max_spec x xs⟩, by decide⟩

/-- Instance of the amended C13 on the `int` operands `2, 3, 4, 5`. -/
theorem compress_max_is_greatest_witness :
    (∀ y ∈ (2 : Int) :: [3, 4, 5], int_type.int.in_range y) ∧
      ((∃ m, (compress1 max_f).call
            (integer.mk int_type.int 2 :: [3, 4, 5].map (integer.mk int_type.int)) =
            some (integer.mk int_type.int m) ∧
          m ∈ (2 : Int) :: [3, 4, 5] ∧ ∀ y ∈ (2 : Int) :: [3, 4, 5], y ≤ m) ∧
        (compress1 max_f).call [int_ 2, int_ 3, int_ 4, int_ 5] = some (int_ 5)) :=
  ⟨by decide, compress_max_is_greatest int_type.int 2 [3, 4, 5] (by decide)⟩

/-- C14: the seeded fold of addition computes the sum. For every list of integers,
`compress(plus, 0)(x0, ..., xk)` is `x0 + ... + xk`; `compress(plus, 0)()` is `0` and
`compress(plus, 0)(1, 2, 3) == 6`. -/
theorem compress_plus_is_sum (xs : List Int) :
    (compress plus 0).call xs = some xs.sum ∧
      (compress plus 0).call [] = some 0 ∧
      (compress plus 0).call [1, 2, 3] = some 6 := by
  refine ⟨?_, rfl, by decide⟩
  refine (detail.v_fold_total _ 0 xs).trans (congrArg some ?_)
  rw [foldl_add_eq, zero_add]

/-- C19: the fold splits over concatenation. `compress(f, z)(xs..., ys...)` equals
`compress(f, compress(f, z)(xs...))(ys...)`: for a callable `f` that may be invalid the
whole call is the call on `ys` reseeded with the value of the call on `xs`, and is
rejected when the call on `xs` is; for a binary operation `F` the call on `xs` has a
value `s` and the whole call equals `compress(F, s)(ys...)`. -/
theorem compress_splits_over_append (F : α → α → α) (f : α → α → Option α) (z : α)
    (xs ys : List α) :
    (compress f z).call (xs ++ ys) =
        ((compress f z).call xs).bind (fun s => (compress f s).call ys) ∧
      ∃ s, (compress (total F) z).call xs = some s ∧
        (compress (total F) z).call (xs ++ ys) = (compress (total F) s).call ys := by
  refine ⟨detail.v_fold_append f z xs ys, List.foldl F z xs, detail.v_fold_total F z xs, ?_⟩
  have h := detail.v_fold_append (total F) z xs ys
  rw [detail.v_fold_total F z xs] at h
  exact h

/-! ## The effect of an invocation on the adaptor object -/

/-- C15: `combine(F)()` has no value for any `F`, where the claim gives `F()`:
`combine_adaptor` takes the size of a pack `Ts` that it does not declare. The base class
instantiated with the empty index sequence does give `F()`. -/
theorem combine_no_callables_has_no_value (f : List α → Option α) :
    combine_call f [] [] = none ∧
      combine_call (fun _ => some (7 : Int)) [] [] = none ∧
      (detail.combine_adaptor_base.mk (detail.gens 0) f []).call [] = f [] :=
  ⟨rfl, rfl, rfl⟩

/-- C17, as stated, fails: with both wrapped callables adding up all the arguments they
are given, the claim gives `combine(sum, sum_all, sum_all)(3, 5)` the value
`sum(sum_all(3, 5), sum_all(3, 5)) == 16`; the call has no value, and the base class
instantiated with the indices `0, 1` gives `sum(sum_all(3), sum_all(5)) == 8`. -/
theorem combine_fan_out_counterexample :
    combine_call sum [unary sum_all, unary sum_all] [3, 5] = none ∧
      sum_all [3, 5] = some 8 ∧ sum [8, 8] = some 16 ∧
      combine_call sum [unary sum_all, unary sum_all] [3, 5] ≠ sum [8, 8] ∧
      (detail.combine_adaptor_base.mk [0, 1] sum [unary sum_all, unary sum_all]).call
        [3, 5] = some 8 := by
  decide

/-- C17, amended: the invocation operator of the distribution adaptor gives no wrapped
callable the whole argument list. Whenever `C(a0, ..., am-1)` has a value, at whatever
index sequence the base class is instantiated with, there are as many arguments as
wrapped callables and the value is `F` applied to `m` results, the result at each
position `k` being the value of the wrapped callable that `pack_get` returns for the
index at `k`, called on the one argument `ak`. -/
theorem combine_calls_each_callable_on_one_argument (Ns : List Nat)
    (f : List α → Option α) (gs : List (List α → Option α)) (xs : List α) (r : α)
    (h : (detail.combine_adaptor_base.mk Ns f (gs.map unary)).call xs = some r) :
    xs.length = gs.length ∧
      ∃ rs, f rs = some r ∧ rs.length = xs.length ∧
        ∀ (k : Nat) (x : α), xs[k]? = some x →
          ∃ (n : Nat) (G : List α → Option α) (y : α),
            Ns[k]? = some n ∧ gs[n]? = some G ∧ G [x] = some y ∧ rs[k]? = some y := by
  simp only [detail.combine_adaptor_base.call] at h
  split at h
  · exact absurd h (by simp)
  · rename_i rs hrs
    have hlen := detail.expand_some_length hrs
    obtain ⟨hrl, hpos⟩ := detail.expand_some_results hrs
    refine ⟨by simpa using hlen.2.symm, rs, h, hrl, ?_⟩
    intro k x hk
    obtain ⟨n, g, y, h1, h2, h3, h4⟩ := hpos k x hk
    rw [List.getElem?_map] at h2
    cases hG : gs[n]? with
    | none => simp [hG] at h2
    | some G =>
      simp only [hG, Option.map_some', Option.some.injEq] at h2
      subst h2
      exact ⟨n, G, y, h1, hG, h3, h4⟩

/-- Instance of the amended C17 at the base class with the indices `0, 1`. -/
theorem combine_calls_each_callable_on_one_argument_witness :
    (detail.combine_adaptor_base.mk [0, 1] sum ([sum_all, sum_all].map unary)).call
        [3, 5] = some 8 ∧
      [(3 : Int), 5].length = [sum_all, sum_all].length :=
  ⟨by decide,
    (combine_calls_each_callable_on_one_argument [0, 1] sum [sum_all, sum_all] [3, 5] 8
      (by decide)).1⟩

/-- C18: `combine` requires exactly as many arguments as wrapped callables. With `n`
wrapped callables and `m > n` arguments the invocation is rejected, whatever `F` and the
`Gi` are and whatever index sequence the base class is instantiated with; an invocation
that has a value has `m == n`. -/
theorem combine_needs_exactly_n_args (Ns : List Nat) (f : List α → Option α)
    (gs : List (α → Option α)) (xs : List α) :
    (gs.length < xs.length →
        (detail.combine_adaptor_base.mk Ns f gs).call xs = none ∧
          combine_call f gs xs = none) ∧
      (∀ r, (detail.combine_adaptor_base.mk Ns f gs).call xs = some r ∨
          combine_call f gs xs = some r → xs.length = gs.length) := by
  constructor
  · intro h
    exact ⟨detail.call_eq_none_of_length_ne Ns f gs xs (Nat.ne_of_lt h), rfl⟩
  · intro r hr
    by_contra hne
    rcases hr with hr | hr
    · rw [detail.call_eq_none_of_length_ne Ns f gs xs (fun e => hne e.symm)] at hr
      exact Option.noConfusion hr
    · exact Option.noConfusion ((combine_call_eq_none f gs xs).symm.trans hr)

/-- Instance of C18 at two wrapped callables: three arguments are rejected, and the
base class with the indices `0, 1` accepts two. -/
theorem combine_needs_exactly_n_args_witness :
    ([increment, double].length < [(3 : Int), 5, 6].length ∧
        (detail.combine_adaptor_base.mk [0, 1] sum [increment, double]).call [3, 5, 6] =
          none) ∧
      ((detail.combine_adaptor_base.mk [0, 1] sum [increment, double]).call [3, 5] =
          some 14 ∧
        [(3 : Int), 5].length = [increment, double].length) :=
  ⟨⟨by decide,
      ((combine_needs_exactly_n_args [0, 1] sum [increment, double] [3, 5, 6]).1
        (by decide)).1⟩,
    ⟨by decide,
      (combine_needs_exactly_n_args [0, 1] sum [increment, double] [3, 5]).2 14
        (Or.inl (by decide))⟩⟩

end fit
